import Mathlib

/-!
Verification of the Sudoku engine of `src/sudoku-game.tsx`.

The TypeScript component is embedded shallowly:

* a `Board` is a `List (List Nat)` mirroring `number[][]`; reads go through
  `bget` (out-of-range reads give 0, which matches the fact that the code
  only ever indexes inside the 9×9 grid) and writes through `bset`
  (out-of-range writes are the identity, as `List.set` is);
* `Math.random()`-driven choices are made explicit inputs: the Fisher–Yates
  shuffle of `fillBox` takes a function `jf : Nat → Nat` supplying the raw
  random draw for each loop index `i` (used modulo `i+1`, exactly like
  `Math.floor(Math.random() * (i + 1))`), the carving loop of
  `createPlayableBoard` consumes an explicit list of random cell picks, and
  the hint's random index is a `Nat` taken modulo the candidate count;
* the unbounded recursion of `solveBoard` is given the explicit fuel 82:
  every recursive call fills one empty cell, so the recursion depth of the
  original program is bounded by the number of empty cells plus one (at most
  82 on a 9×9 grid), hence fuel 82 never runs out where the original
  recursion would proceed;
* the React `useState` cell of the component becomes the structure
  `GameState`, and each handler becomes a function `GameState → GameState`
  (the timer fields, which no claim mentions, are omitted).
-/

namespace SudokuGame

/-- A board mirrors the TypeScript `number[][]`. -/
abbrev Board := List (List Nat)

/-- Read `board[r][c]`; out-of-range reads default to 0. -/
def bget (b : Board) (r c : Nat) : Nat := (b.getD r []).getD c 0

/-- Write `board[r][c] = v`; out-of-range writes are the identity. -/
def bset (b : Board) (r c v : Nat) : Board := b.set r ((b.getD r []).set c v)

/-- `Array(9).fill(null).map(() => Array(9).fill(0))` in `generateSolvedBoard`. -/
def emptyBoard : Board := List.replicate 9 (List.replicate 9 0)

/-- `findEmptyCell` (lines 83–92): row-major scan for the first 0 cell. -/
def findEmptyCell (b : Board) : Option (Nat × Nat) :=
  (List.range 81).findSome? fun i =>
    if bget b (i / 9) (i % 9) = 0 then some (i / 9, i % 9) else none

/-- `isValidPlacement` (lines 95–117): the row, column and 3×3 box of the
target cell must not contain `num` anywhere — including the target cell
itself, which the three loops do scan. -/
def isValidPlacement (b : Board) (row col num : Nat) : Bool :=
  ((List.range 9).all fun i => bget b row i != num) &&
  ((List.range 9).all fun i => bget b i col != num) &&
  ((List.range 3).all fun i => (List.range 3).all fun j =>
    bget b (row / 3 * 3 + i) (col / 3 * 3 + j) != num)

/-- `solveBoard` (lines 60–80), with explicit fuel (see the header comment:
fuel 82 is never exhausted on a 9×9 grid because each level of recursion
fills one empty cell).  The candidate loop `for num = 1..9` with early
return on recursive success is `List.findSome?` over `[1,…,9]`; the
in-place `board[row][col] = 0` backtracking of the original corresponds to
simply not keeping the modified board. -/
def solveBoardF : Nat → Board → Option Board
  | 0, _ => none
  | fuel + 1, b =>
    match findEmptyCell b with
    | none => some b
    | some (r, c) =>
      [1, 2, 3, 4, 5, 6, 7, 8, 9].findSome? fun num =>
        if isValidPlacement b r c num then solveBoardF fuel (bset b r c num) else none

/-- The swap `[nums[i], nums[j]] = [nums[j], nums[i]]` of `fillBox`. -/
def swapL (l : List Nat) (i j : Nat) : List Nat := (l.set i (l.getD j 0)).set j (l.getD i 0)

/-- The Fisher–Yates loop of `fillBox` (lines 46–49): `for i = 8; i > 0; i--`,
swapping index `i` with `jf i % (i+1)`. -/
def fyAux (jf : Nat → Nat) : Nat → List Nat → List Nat
  | 0, l => l
  | i + 1, l => fyAux jf i (swapL l (i + 1) (jf (i + 1) % (i + 2)))

/-- The shuffled `nums` array of `fillBox` (lines 43–49). -/
def fyShuffle (jf : Nat → Nat) : List Nat := fyAux jf 8 [1, 2, 3, 4, 5, 6, 7, 8, 9]

/-- `fillBox` (lines 42–57): write the shuffled digits into the 3×3 box with
corner `(rs, cs)`, row-major (`numIndex = 3*i + j`). -/
def fillBox (b : Board) (rs cs : Nat) (jf : Nat → Nat) : Board :=
  let nums := fyShuffle jf
  (List.range 3).foldl
    (fun b1 i =>
      (List.range 3).foldl
        (fun b2 j => bset b2 (rs + i) (cs + j) (nums.getD (3 * i + j) 0)) b1)
    b

/-- `fillDiagonalBoxes` (lines 35–39): boxes with corners (0,0), (3,3), (6,6),
each with its own stream of random draws. -/
def fillDiagonalBoxes (jf : Nat → Nat → Nat) (b : Board) : Board :=
  fillBox (fillBox (fillBox b 0 0 (jf 0)) 3 3 (jf 1)) 6 6 (jf 2)

/-- `generateSolvedBoard` (lines 21–32).  The original mutates `board` in
place and returns it whether or not `solveBoard` succeeded; on failure the
backtracking has reset every cell it touched, so the board handed back is
the seeded diagonal board — which is what the `none` branch returns here. -/
def generateSolvedBoard (jf : Nat → Nat → Nat) : Board :=
  let b := fillDiagonalBoxes jf emptyBoard
  match solveBoardF 82 b with
  | some s => s
  | none => b

/-- The `Difficulty` union type (line 6). -/
inductive Difficulty
  | easy
  | medium
  | hard
  | expert
deriving DecidableEq

/-- The `cellsToRemove` table of `createPlayableBoard` (lines 122–127). -/
def cellsToRemove : Difficulty → Nat
  | .easy => 30
  | .medium => 40
  | .hard => 50
  | .expert => 60

/-- The `while (removed < cellsToRemove)` loop of `createPlayableBoard`
(lines 129–138), with the random cell picks as an explicit list.  Running
out of picks (`[]` with the quota not yet reached) models the loop not
having terminated within the supplied draws. -/
def carveLoop (quota : Nat) : List (Nat × Nat) → Nat → Board → Option Board
  | [], removed, b => if quota ≤ removed then some b else none
  | (r, c) :: rest, removed, b =>
    if quota ≤ removed then some b
    else if bget b r c != 0 then carveLoop quota rest (removed + 1) (bset b r c 0)
    else carveLoop quota rest removed b

/-- `createPlayableBoard` (lines 120–141).  The `JSON.parse(JSON.stringify(...))`
deep copy is the identity in this pure embedding. -/
def createPlayableBoard (picks : List (Nat × Nat)) (solved : Board) (d : Difficulty) :
    Option Board :=
  carveLoop (cellsToRemove d) picks 0 solved

/-- `isBoardFilled` (lines 188–195). -/
def isBoardFilled (b : Board) : Bool :=
  (List.range 9).all fun r => (List.range 9).all fun c => bget b r c != 0

/-- The `seen`-set scan shared by the three loop nests of `isBoardValid`
(lines 198–237): walk the group's values, skip zeros, fail on a value
already seen.  The `Set<number>` is modelled as the list of values added
so far. -/
def groupValid (seen : List Nat) : List Nat → Bool
  | [] => true
  | v :: rest =>
    if v = 0 then groupValid seen rest
    else if seen.contains v then false
    else groupValid (v :: seen) rest

/-- The nine values of row `r`, in the column order scanned by the code. -/
def rowVals (b : Board) (r : Nat) : List Nat := (List.range 9).map fun c => bget b r c

/-- The nine values of column `c`, in the row order scanned by the code. -/
def colVals (b : Board) (c : Nat) : List Nat := (List.range 9).map fun r => bget b r c

/-- The nine values of the box with corner `(br, bc)`, in the `(i, j)` order
scanned by the code. -/
def boxVals (b : Board) (br bc : Nat) : List Nat :=
  (List.range 3).flatMap fun i => (List.range 3).map fun j => bget b (br + i) (bc + j)

/-- `isBoardValid` (lines 198–237): every row, then every column, then every
box (corners 0, 3, 6) passes the duplicate scan.  The early `return false`
of the code is the short-circuit of `&&` / `List.all`. -/
def isBoardValid (b : Board) : Bool :=
  ((List.range 9).all fun r => groupValid [] (rowVals b r)) &&
  ((List.range 9).all fun c => groupValid [] (colVals b c)) &&
  (([0, 3, 6] : List Nat).all fun br =>
    ([0, 3, 6] : List Nat).all fun bc => groupValid [] (boxVals b br bc))

/-- The `seen`-map scan shared by the three loop nests of
`highlightInvalidCells` (lines 240–293): walk the group's `(cell, value)`
pairs, skip zeros; on a value already seen push the current cell and the
most recent previous cell holding it, and (re)record the current cell for
the value.  The `Map<number, cell>` is an association list whose head
entry shadows older ones, matching `Map.set`'s overwrite.  (The box nest of
the code stores box-local coordinates and adds the corner back on emission;
here the cells carry absolute coordinates throughout, which yields the same
emitted pairs.) -/
def groupConflicts (seen : List (Nat × (Nat × Nat))) :
    List ((Nat × Nat) × Nat) → List (Nat × Nat)
  | [] => []
  | (p, v) :: rest =>
    if v = 0 then groupConflicts seen rest
    else
      match seen.lookup v with
      | some q => p :: q :: groupConflicts ((v, p) :: seen) rest
      | none => groupConflicts ((v, p) :: seen) rest

/-- Row `r` as the `(cell, value)` list scanned by `highlightInvalidCells`. -/
def rowCells (b : Board) (r : Nat) : List ((Nat × Nat) × Nat) :=
  (List.range 9).map fun c => ((r, c), bget b r c)

/-- Column `c` as the `(cell, value)` list scanned by `highlightInvalidCells`. -/
def colCells (b : Board) (c : Nat) : List ((Nat × Nat) × Nat) :=
  (List.range 9).map fun r => ((r, c), bget b r c)

/-- The box with corner `(br, bc)` as the `(cell, value)` list scanned by
`highlightInvalidCells`. -/
def boxCells (b : Board) (br bc : Nat) : List ((Nat × Nat) × Nat) :=
  (List.range 3).flatMap fun i =>
    (List.range 3).map fun j => ((br + i, bc + j), bget b (br + i) (bc + j))

/-- `highlightInvalidCells` (lines 240–293): the `invalid` array accumulated
over rows, then columns, then boxes. -/
def highlightInvalidCells (b : Board) : List (Nat × Nat) :=
  ((List.range 9).flatMap fun r => groupConflicts [] (rowCells b r)) ++
  ((List.range 9).flatMap fun c => groupConflicts [] (colCells b c)) ++
  (([0, 3, 6] : List Nat).flatMap fun br =>
    ([0, 3, 6] : List Nat).flatMap fun bc => groupConflicts [] (boxCells b br bc))

/-- The `useState` cells of the component that the claims are about
(lines 10–18); the timer fields are omitted. -/
structure GameState where
  selectedCell : Option (Nat × Nat)
  gameBoard : Board
  originalBoard : Board
  completed : Bool
  gameStarted : Bool
  invalidCells : List (Nat × Nat)
deriving DecidableEq

/-- `startNewGame` (lines 144–156), with explicit random streams for the
generator and the carver; `none` when the supplied carve picks do not reach
the removal quota. -/
def startNewGame (d : Difficulty) (jf : Nat → Nat → Nat) (picks : List (Nat × Nat)) :
    Option GameState :=
  match createPlayableBoard picks (generateSolvedBoard jf) d with
  | none => none
  | some playable =>
    some { selectedCell := none, gameBoard := playable, originalBoard := playable,
           completed := false, gameStarted := true, invalidCells := [] }

/-- `handleCellSelect` (lines 159–164). -/
def handleCellSelect (r c : Nat) (s : GameState) : GameState :=
  if bget s.originalBoard r c != 0 then s
  else { s with selectedCell := some (r, c) }

/-- `handleNumberInput` (lines 167–185): toggle semantics, then the
completion check (which only ever sets `completed` to `true`), then the
recomputation of the invalid-cell list. -/
def handleNumberInput (num : Nat) (s : GameState) : GameState :=
  match s.selectedCell with
  | none => s
  | some (r, c) =>
    let nb := bset s.gameBoard r c (if num = bget s.gameBoard r c then 0 else num)
    { s with gameBoard := nb,
             completed := if isBoardFilled nb && isBoardValid nb then true else s.completed,
             invalidCells := highlightInvalidCells nb }

/-- The `emptyOrIncorrectCells` array of `showHint` (lines 301–309),
row-major. -/
def hintCells (game sol : Board) : List (Nat × Nat) :=
  (List.range 9).flatMap fun r =>
    (List.range 9).filterMap fun c =>
      if bget game r c == 0 || bget game r c != bget sol r c then some (r, c) else none

/-- `showHint` (lines 296–327), with the fresh reference generation's random
stream and the random index draw as explicit inputs (`pick` is reduced
modulo the candidate count, exactly the range of
`Math.floor(Math.random() * length)`). -/
def showHint (jf : Nat → Nat → Nat) (pick : Nat) (s : GameState) : GameState :=
  if s.gameStarted = false then s
  else
    let sol := generateSolvedBoard jf
    let cells := hintCells s.gameBoard sol
    if cells.length = 0 then s
    else
      let p := cells.getD (pick % cells.length) (0, 0)
      let nb := bset s.gameBoard p.1 p.2 (bget sol p.1 p.2)
      { s with gameBoard := nb,
               completed := if isBoardFilled nb && isBoardValid nb then true else s.completed,
               invalidCells := highlightInvalidCells nb }

/-! ### Specification-level vocabulary (not from the source) -/

/-- A well-formed 9×9 board. -/
def boardWF (b : Board) : Prop := b.length = 9 ∧ ∀ row ∈ b, row.length = 9

instance (b : Board) : Decidable (boardWF b) := by unfold boardWF; infer_instance

/-- All 81 cell coordinates, row-major. -/
def allCells : List (Nat × Nat) :=
  (List.range 9).flatMap fun r => (List.range 9).map fun c => (r, c)

/-- The number of non-zero cells of a board (counted over the 9×9 range). -/
def nonzeroCount (b : Board) : Nat :=
  (allCells.filter fun p => bget b p.1 p.2 != 0).length

/-- The first `n` picks of an infinite pick stream. -/
def streamTake (n : Nat) (f : Nat → Nat × Nat) : List (Nat × Nat) :=
  (List.range n).map f

/-- The carving loop terminates on the pick stream `f`: some finite prefix of
the stream lets it reach its removal quota. -/
def carveTerminates (quota : Nat) (f : Nat → Nat × Nat) (b : Board) : Prop :=
  ∃ n, (carveLoop quota (streamTake n f) 0 b).isSome

/-- A pick stream is fair when every cell of the grid is picked at or after
every point in time. -/
def FairPicks (f : Nat → Nat × Nat) : Prop :=
  ∀ p ∈ allCells, ∀ n : Nat, ∃ m, n ≤ m ∧ f m = p

/-- Drop the first `i` picks of a stream. -/
def shiftStream (f : Nat → Nat × Nat) (i : Nat) : Nat → Nat × Nat :=
  fun n => f (n + i)

/-! ### Concrete data used by witnesses and counterexamples -/

/-- The random-draw table used for concrete runs of the generator
(each inner list holds the draws for loop indices i = 1, 2, …, 8). -/
def jf0Tab : List (List Nat) := [[5, 0, 8, 2, 0, 8, 0, 4], [0, 5, 6, 7, 4, 5, 4, 0], [0, 7, 6, 5, 2, 5, 0, 4]]

/-- A concrete random stream for `generateSolvedBoard`. -/
def jf0 : Nat → Nat → Nat := fun b i => (jf0Tab.getD b []).getD (i - 1) 0

/-- The board `generateSolvedBoard jf0` evaluates to. -/
def s0 : Board :=
  [[9, 7, 4, 1, 2, 3, 5, 6, 8],
   [6, 3, 8, 4, 7, 5, 1, 2, 9],
   [2, 1, 5, 8, 6, 9, 3, 4, 7],
   [1, 5, 3, 2, 9, 4, 8, 7, 6],
   [4, 2, 6, 7, 3, 8, 9, 5, 1],
   [7, 8, 9, 6, 5, 1, 2, 3, 4],
   [3, 6, 1, 5, 8, 7, 4, 9, 2],
   [5, 4, 2, 9, 1, 6, 7, 8, 3],
   [8, 9, 7, 3, 4, 2, 6, 1, 5]]

/-- A second random-draw table, giving a different generated board. -/
def jf2Tab : List (List Nat) := [[5, 8, 7, 6, 8, 1, 4, 6], [0, 7, 5, 1, 1, 8, 4, 3], [1, 2, 1, 0, 4, 6, 1, 2]]

/-- A second concrete random stream for `generateSolvedBoard`. -/
def jf2 : Nat → Nat → Nat := fun b i => (jf2Tab.getD b []).getD (i - 1) 0

/-- The board `generateSolvedBoard jf2` evaluates to. -/
def s2 : Board :=
  [[1, 8, 6, 4, 2, 3, 5, 9, 7],
   [4, 9, 3, 1, 7, 5, 2, 6, 8],
   [2, 5, 7, 6, 9, 8, 1, 3, 4],
   [5, 2, 8, 3, 1, 9, 4, 7, 6],
   [3, 1, 4, 8, 6, 7, 9, 5, 2],
   [6, 7, 9, 2, 5, 4, 3, 8, 1],
   [7, 3, 1, 5, 8, 2, 6, 4, 9],
   [9, 4, 2, 7, 3, 6, 8, 1, 5],
   [8, 6, 5, 9, 4, 1, 7, 2, 3]]

/-- Thirty distinct cell picks (the first thirty cells, row-major): enough
for the easy-tier quota when carving a fully filled board. -/
def picks30 : List (Nat × Nat) := (List.range 30).map fun i => (i / 9, i % 9)

/-- The puzzle carved out of `s0` by `picks30` at the easy tier. -/
def carved0 : Board :=
  [[0, 0, 0, 0, 0, 0, 0, 0, 0],
   [0, 0, 0, 0, 0, 0, 0, 0, 0],
   [0, 0, 0, 0, 0, 0, 0, 0, 0],
   [0, 0, 0, 2, 9, 4, 8, 7, 6],
   [4, 2, 6, 7, 3, 8, 9, 5, 1],
   [7, 8, 9, 6, 5, 1, 2, 3, 4],
   [3, 6, 1, 5, 8, 7, 4, 9, 2],
   [5, 4, 2, 9, 1, 6, 7, 8, 3],
   [8, 9, 7, 3, 4, 2, 6, 1, 5]]

/-- The session state produced by `startNewGame .easy jf0 picks30`. -/
def st0 : GameState :=
  { selectedCell := none, gameBoard := carved0, originalBoard := carved0,
    completed := false, gameStarted := true, invalidCells := [] }

/-- `s0` with the digits 1 and 2 interchanged everywhere: a fully solved
grid distinct from `s0`. -/
def g0 : Board :=
  [[9, 7, 4, 2, 1, 3, 5, 6, 8],
   [6, 3, 8, 4, 7, 5, 2, 1, 9],
   [1, 2, 5, 8, 6, 9, 3, 4, 7],
   [2, 5, 3, 1, 9, 4, 8, 7, 6],
   [4, 1, 6, 7, 3, 8, 9, 5, 2],
   [7, 8, 9, 6, 5, 2, 1, 3, 4],
   [3, 6, 2, 5, 8, 7, 4, 9, 1],
   [5, 4, 1, 9, 2, 6, 7, 8, 3],
   [8, 9, 7, 3, 4, 1, 6, 2, 5]]

/-- An in-progress session whose grid is the full correct solution `g0`. -/
def st3 : GameState :=
  { selectedCell := none, gameBoard := g0, originalBoard := g0,
    completed := false, gameStarted := true, invalidCells := [] }

/-- A session whose grid is the freshly generated reference board `s0`. -/
def st4 : GameState :=
  { selectedCell := none, gameBoard := s0, originalBoard := s0,
    completed := false, gameStarted := true, invalidCells := [] }

/-- A session already marked completed (used to exercise the handlers'
treatment of the `completed` flag). -/
def stDone : GameState :=
  { selectedCell := none, gameBoard := g0, originalBoard := g0,
    completed := true, gameStarted := false, invalidCells := [] }

/-- The cyclically shifted rows pattern: a valid solved Sudoku grid. -/
def patternBoard : Board :=
  [[1, 2, 3, 4, 5, 6, 7, 8, 9],
   [4, 5, 6, 7, 8, 9, 1, 2, 3],
   [7, 8, 9, 1, 2, 3, 4, 5, 6],
   [2, 3, 4, 5, 6, 7, 8, 9, 1],
   [5, 6, 7, 8, 9, 1, 2, 3, 4],
   [8, 9, 1, 2, 3, 4, 5, 6, 7],
   [3, 4, 5, 6, 7, 8, 9, 1, 2],
   [6, 7, 8, 9, 1, 2, 3, 4, 5],
   [9, 1, 2, 3, 4, 5, 6, 7, 8]]

/-- `patternBoard` with its first thirty cells (row-major) cleared: the
easy-tier carve of `patternBoard` along `picks30`. -/
def patternCarved : Board :=
  [[0, 0, 0, 0, 0, 0, 0, 0, 0],
   [0, 0, 0, 0, 0, 0, 0, 0, 0],
   [0, 0, 0, 0, 0, 0, 0, 0, 0],
   [0, 0, 0, 5, 6, 7, 8, 9, 1],
   [5, 6, 7, 8, 9, 1, 2, 3, 4],
   [8, 9, 1, 2, 3, 4, 5, 6, 7],
   [3, 4, 5, 6, 7, 8, 9, 1, 2],
   [6, 7, 8, 9, 1, 2, 3, 4, 5],
   [9, 1, 2, 3, 4, 5, 6, 7, 8]]

/-- The grid of Scenario A: two 7s in row 0 (columns 0 and 3), rest empty. -/
def g7 : Board :=
  [[7, 0, 0, 7, 0, 0, 0, 0, 0],
   [0, 0, 0, 0, 0, 0, 0, 0, 0],
   [0, 0, 0, 0, 0, 0, 0, 0, 0],
   [0, 0, 0, 0, 0, 0, 0, 0, 0],
   [0, 0, 0, 0, 0, 0, 0, 0, 0],
   [0, 0, 0, 0, 0, 0, 0, 0, 0],
   [0, 0, 0, 0, 0, 0, 0, 0, 0],
   [0, 0, 0, 0, 0, 0, 0, 0, 0],
   [0, 0, 0, 0, 0, 0, 0, 0, 0]]

/-- A grid holding a single 5, at cell (0,0). -/
def b5 : Board :=
  [[5, 0, 0, 0, 0, 0, 0, 0, 0],
   [0, 0, 0, 0, 0, 0, 0, 0, 0],
   [0, 0, 0, 0, 0, 0, 0, 0, 0],
   [0, 0, 0, 0, 0, 0, 0, 0, 0],
   [0, 0, 0, 0, 0, 0, 0, 0, 0],
   [0, 0, 0, 0, 0, 0, 0, 0, 0],
   [0, 0, 0, 0, 0, 0, 0, 0, 0],
   [0, 0, 0, 0, 0, 0, 0, 0, 0],
   [0, 0, 0, 0, 0, 0, 0, 0, 0]]

/-- Apply a list of player moves, each a cell selection followed by a
number-pad press, to a session state. -/
def applyMoves (ms : List (Nat × Nat × Nat)) (s : GameState) : GameState :=
  ms.foldl (fun st m => handleNumberInput m.2.2 (handleCellSelect m.1 m.2.1 st)) s

/-- The moves filling the thirty carved-out cells of `carved0` with the
values of the solution `s0` it was carved from, row-major. -/
def playMoves : List (Nat × Nat × Nat) :=
  (List.range 30).map fun i => (i / 9, i % 9, bget s0 (i / 9) (i % 9))

/-- The session state after playing `playMoves` from `st0`: the completed
game. -/
def completedState : GameState := applyMoves playMoves st0

/-- The pick stream cycling through all 81 cells, row-major. -/
def cyclePicks : Nat → Nat × Nat := fun n => (n / 9 % 9, n % 9)

/-- The pick stream that always names cell (0,0). -/
def constPicks : Nat → Nat × Nat := fun _ => (0, 0)

/-!  ### Theorems  -/

set_option maxRecDepth 100000 in
theorem genEval0 : generateSolvedBoard jf0 = s0 := by rfl

set_option maxRecDepth 100000 in
theorem genEval2 : generateSolvedBoard jf2 = s2 := by rfl

/-! #### Reading and writing cells -/

theorem bget_bset_of_ne {b : Board} {r c v r' c' : Nat} (h : r' ≠ r ∨ c' ≠ c) :
    bget (bset b r c v) r' c' = bget b r' c' := by
  unfold bget bset
  simp only [List.getD_eq_getElem?_getD]
  rcases eq_or_ne r' r with rfl | hr
  · replace h : c' ≠ c := h.resolve_left (by simp)
    by_cases hlen : r' < b.length
    · rw [List.getElem?_set_self hlen, Option.getD_some, List.getElem?_set_ne (Ne.symm h)]
    · have h1 : (List.set b r' ((b[r']?.getD []).set c v))[r']? = none :=
        List.getElem?_eq_none (by rw [List.length_set]; omega)
      have h2 : b[r']? = none := List.getElem?_eq_none (by omega)
      rw [h1, h2]
  · rw [List.getElem?_set_ne (Ne.symm hr)]

theorem bget_bset_self {b : Board} {r c v : Nat} (hr : r < b.length)
    (hc : c < (b.getD r []).length) : bget (bset b r c v) r c = v := by
  unfold bget bset
  simp only [List.getD_eq_getElem?_getD] at hc ⊢
  rw [List.getElem?_set_self hr, Option.getD_some, List.getElem?_set_self hc,
    Option.getD_some]

theorem bget_bset_or (b : Board) (r c v r' c' : Nat) :
    bget (bset b r c v) r' c' = bget b r' c' ∨ bget (bset b r c v) r' c' = v := by
  by_cases hne : r' ≠ r ∨ c' ≠ c
  · exact Or.inl (bget_bset_of_ne hne)
  · push_neg at hne
    obtain ⟨rfl, rfl⟩ := hne
    by_cases hr : r' < b.length
    · by_cases hc : c' < (b.getD r' []).length
      · exact Or.inr (bget_bset_self hr hc)
      · left
        unfold bget bset
        simp only [List.getD_eq_getElem?_getD] at hc ⊢
        rw [List.getElem?_set_self hr, Option.getD_some,
          @List.set_eq_of_length_le _ (b[r']?.getD []) c' (by omega) v]
    · left
      unfold bset
      rw [@List.set_eq_of_length_le _ b r' (by omega) _]

theorem length_bset (b : Board) (r c v : Nat) : (bset b r c v).length = b.length := by
  unfold bset; exact List.length_set ..

theorem boardWF_bset {b : Board} (h : boardWF b) (r c v : Nat) : boardWF (bset b r c v) := by
  obtain ⟨hlen, hrows⟩ := h
  by_cases hr : r < b.length
  · refine ⟨by rw [length_bset]; exact hlen, fun row hrow => ?_⟩
    rcases List.mem_or_eq_of_mem_set hrow with hmem | rfl
    · exact hrows row hmem
    · rw [List.length_set]
      have hbr : b.getD r [] = b[r] := by
        rw [List.getD_eq_getElem?_getD, List.getElem?_eq_getElem hr]; rfl
      rw [hbr]
      exact hrows _ (List.getElem_mem hr)
  · unfold bset
    rw [@List.set_eq_of_length_le _ b r (by omega) _]
    exact ⟨hlen, hrows⟩

/-! #### C7: `isValidPlacement` -/

/-- C7 fails on the code as stated: the three scan loops of
`isValidPlacement` do examine the target cell.  On the board `b5`, whose
only 5 sits at the target cell (0,0) — so that no *other* cell of row 0,
column 0 or the top-left box holds a 5 — the function returns `false`,
while the claim requires `true`. -/
theorem C7_counterexample_target_cell_examined :
    isValidPlacement b5 0 0 5 = false ∧
    (∀ i, i < 9 → i ≠ 0 → bget b5 0 i ≠ 5) ∧
    (∀ i, i < 9 → i ≠ 0 → bget b5 i 0 ≠ 5) ∧
    (∀ i, i < 3 → ∀ j, j < 3 → ¬(i = 0 ∧ j = 0) → bget b5 i j ≠ 5) := by decide

/-- C7, amended: for row and column indices in range,
`isValidPlacement(g, r, c, v)` is true iff no cell of row `r`, of column
`c`, or of the 3×3 box containing `(r, c)` — the target cell `(r, c)`
itself included — holds `v`. -/
theorem C7_amended_isValidPlacement_iff (b : Board) (r c v : Nat)
    (_hr : r < 9) (_hc : c < 9) :
    isValidPlacement b r c v = true ↔
      ((∀ i, i < 9 → bget b r i ≠ v) ∧ (∀ i, i < 9 → bget b i c ≠ v) ∧
       (∀ i, i < 3 → ∀ j, j < 3 → bget b (r / 3 * 3 + i) (c / 3 * 3 + j) ≠ v)) := by
  unfold isValidPlacement
  simp [List.all_eq_true, and_assoc]

/-- Witness for C7's amended theorem at the concrete scenario-A board, row 0,
column 1, value 7 (both sides of the equivalence are false there: column 0
of row 0 holds a 7). -/
theorem C7_amended_witness :
    (0 : Nat) < 9 ∧ (1 : Nat) < 9 ∧
    (isValidPlacement g7 0 1 7 = true ↔
      ((∀ i, i < 9 → bget g7 0 i ≠ 7) ∧ (∀ i, i < 9 → bget g7 i 1 ≠ 7) ∧
       (∀ i, i < 3 → ∀ j, j < 3 → bget g7 (0 / 3 * 3 + i) (1 / 3 * 3 + j) ≠ 7))) :=
  ⟨by decide, by decide, C7_amended_isValidPlacement_iff g7 0 1 7 (by decide) (by decide)⟩

/-! #### C5 and C6: the duplicate scan versus the conflict enumeration -/

theorem rowCells_map_snd (b : Board) (r : Nat) :
    (rowCells b r).map Prod.snd = rowVals b r := by
  simp [rowCells, rowVals, List.map_map, Function.comp]

theorem colCells_map_snd (b : Board) (c : Nat) :
    (colCells b c).map Prod.snd = colVals b c := by
  simp [colCells, colVals, List.map_map, Function.comp]

theorem boxCells_map_snd (b : Board) (br bc : Nat) :
    (boxCells b br bc).map Prod.snd = boxVals b br bc := by
  simp [boxCells, boxVals, List.map_flatMap, List.map_map, Function.comp_def]

/-- The conflict walk emits nothing on a group iff the duplicate scan accepts
the group's values, for any pair of `seen` accumulators recording the same
value set. -/
theorem groupConflicts_eq_nil_iff (cells : List ((Nat × Nat) × Nat)) :
    ∀ (seenC : List (Nat × (Nat × Nat))) (seenV : List Nat),
      (∀ v : Nat, seenV.contains v = (seenC.lookup v).isSome) →
      (groupConflicts seenC cells = [] ↔ groupValid seenV (cells.map Prod.snd) = true) := by
  induction cells with
  | nil => intro seenC seenV _; simp [groupConflicts, groupValid]
  | cons pv rest ih =>
    intro seenC seenV hinv
    obtain ⟨p, v⟩ := pv
    by_cases hv : v = 0
    · subst hv
      simpa [groupConflicts, groupValid] using ih seenC seenV hinv
    · have hlook := hinv v
      cases hs : seenC.lookup v with
      | some q =>
        have hcont : seenV.contains v = true := by rw [hlook, hs]; rfl
        have hmem : v ∈ seenV := by simpa using hcont
        refine iff_of_false ?_ ?_
        · simp [groupConflicts, hv, hs]
        · simp [groupValid, hv, hmem]
      | none =>
        have hcont : seenV.contains v = false := by rw [hlook, hs]; rfl
        have hnmem : v ∉ seenV := by simpa using hcont
        have hinv' : ∀ w : Nat,
            (v :: seenV).contains w = (((v, p) :: seenC).lookup w).isSome := by
          intro w
          by_cases hw : w = v
          · subst hw
            simp [List.lookup_cons_self]
          · have hwv : (w == v) = false := beq_false_of_ne hw
            rw [List.contains_cons, hwv, Bool.false_or, List.lookup_cons, hwv]
            exact hinv w
        have hgc : groupConflicts seenC ((p, v) :: rest) =
            groupConflicts ((v, p) :: seenC) rest := by
          simp [groupConflicts, hv, hs]
        have hgv : groupValid seenV (((p, v) :: rest).map Prod.snd) =
            groupValid (v :: seenV) (rest.map Prod.snd) := by
          simp [groupValid, hv, hnmem]
        rw [hgc, hgv]
        exact ih _ _ hinv'

/-- C5: `isValid` is true exactly when the conflict enumeration is empty,
for every grid. -/
theorem C5_isValid_iff_no_conflicts (b : Board) :
    isBoardValid b = true ↔ highlightInvalidCells b = [] := by
  have base : ∀ v : Nat, ([] : List Nat).contains v =
      (([] : List (Nat × (Nat × Nat))).lookup v).isSome := fun _ => rfl
  have hrow : ∀ r, (groupConflicts [] (rowCells b r) = [] ↔
      groupValid [] (rowVals b r) = true) := fun r => by
    rw [← rowCells_map_snd]; exact groupConflicts_eq_nil_iff _ _ _ base
  have hcol : ∀ c, (groupConflicts [] (colCells b c) = [] ↔
      groupValid [] (colVals b c) = true) := fun c => by
    rw [← colCells_map_snd]; exact groupConflicts_eq_nil_iff _ _ _ base
  have hbox : ∀ br bc, (groupConflicts [] (boxCells b br bc) = [] ↔
      groupValid [] (boxVals b br bc) = true) := fun br bc => by
    rw [← boxCells_map_snd]; exact groupConflicts_eq_nil_iff _ _ _ base
  unfold isBoardValid highlightInvalidCells
  simp only [Bool.and_eq_true, List.all_eq_true, List.mem_range,
    List.append_eq_nil, List.flatMap_eq_nil_iff]
  constructor
  · rintro ⟨⟨h1, h2⟩, h3⟩
    exact ⟨⟨fun r hr => (hrow r).mpr (h1 r hr),
      fun c hc => (hcol c).mpr (h2 c hc)⟩,
      fun br hbr bc hbc => (hbox br bc).mpr (h3 br hbr bc hbc)⟩
  · rintro ⟨⟨h1, h2⟩, h3⟩
    exact ⟨⟨fun r hr => (hrow r).mp (h1 r hr),
      fun c hc => (hcol c).mp (h2 c hc)⟩,
      fun br hbr bc hbc => (hbox br bc).mp (h3 br hbr bc hbc)⟩

/-- If the walk's `seen` map already knows the value `v`, every later cell
holding `v` is emitted. -/
theorem mem_groupConflicts_of_seen (cells : List ((Nat × Nat) × Nat)) :
    ∀ seen : List (Nat × (Nat × Nat)), ∀ p : Nat × Nat, ∀ v : Nat,
      v ≠ 0 → (p, v) ∈ cells → (seen.lookup v).isSome = true →
      p ∈ groupConflicts seen cells := by
  induction cells with
  | nil => intro _ _ _ _ h _; simp at h
  | cons hd rest ih =>
    intro seen p v hv hmem hsome
    obtain ⟨x, w⟩ := hd
    simp only [List.mem_cons, Prod.mk.injEq] at hmem
    rcases hmem with ⟨rfl, rfl⟩ | hmem'
    · obtain ⟨q', hq'⟩ := Option.isSome_iff_exists.mp hsome
      simp [groupConflicts, hv, hq']
    · by_cases hw : w = 0
      · subst hw
        simpa [groupConflicts] using ih seen p v hv hmem' hsome
      · have hsome' : (((w, x) :: seen).lookup v).isSome = true := by
          rw [List.lookup_cons]
          cases hwv : v == w
          · simpa using hsome
          · simp
        cases hq : seen.lookup w with
        | some q' =>
          have hrec := ih ((w, x) :: seen) p v hv hmem' hsome'
          have hgc : groupConflicts seen ((x, w) :: rest) =
              x :: q' :: groupConflicts ((w, x) :: seen) rest := by
            simp [groupConflicts, hw, hq]
          rw [hgc]
          exact List.mem_cons_of_mem _ (List.mem_cons_of_mem _ hrec)
        | none =>
          simpa [groupConflicts, hw, hq] using ih ((w, x) :: seen) p v hv hmem' hsome'

/-- If the walk's `seen` map currently credits the value `v` to the cell `p`
and some later cell holds `v`, then `p` is emitted. -/
theorem mem_groupConflicts_pending (cells : List ((Nat × Nat) × Nat)) :
    ∀ seen : List (Nat × (Nat × Nat)), ∀ p : Nat × Nat, ∀ v : Nat,
      v ≠ 0 → seen.lookup v = some p → (∃ q : Nat × Nat, (q, v) ∈ cells) →
      p ∈ groupConflicts seen cells := by
  induction cells with
  | nil => rintro _ _ _ _ _ ⟨q, hq⟩; simp at hq
  | cons hd rest ih =>
    rintro seen p v hv hs ⟨q0, hq0⟩
    obtain ⟨x, w⟩ := hd
    simp only [List.mem_cons, Prod.mk.injEq] at hq0
    rcases hq0 with ⟨rfl, rfl⟩ | hq0'
    · simp [groupConflicts, hv, hs]
    · by_cases hw : w = 0
      · subst hw
        simpa [groupConflicts] using ih seen p v hv hs ⟨q0, hq0'⟩
      · by_cases hwv : w = v
        · subst hwv
          simp [groupConflicts, hw, hs]
        · have hs' : ((w, x) :: seen).lookup v = some p := by
            rw [List.lookup_cons,
              show (v == w) = false from beq_false_of_ne fun h => hwv h.symm]
            exact hs
          cases hq : seen.lookup w with
          | some q' =>
            have hrec := ih ((w, x) :: seen) p v hv hs' ⟨q0, hq0'⟩
            have hgc : groupConflicts seen ((x, w) :: rest) =
                x :: q' :: groupConflicts ((w, x) :: seen) rest := by
              simp [groupConflicts, hw, hq]
            rw [hgc]
            exact List.mem_cons_of_mem _ (List.mem_cons_of_mem _ hrec)
          | none =>
            simpa [groupConflicts, hw, hq] using ih ((w, x) :: seen) p v hv hs' ⟨q0, hq0'⟩

/-- Any cell holding a non-zero value that some other cell of the same group
also holds is emitted by the conflict walk. -/
theorem mem_groupConflicts_dup (cells : List ((Nat × Nat) × Nat)) :
    ∀ seen : List (Nat × (Nat × Nat)), ∀ p q : Nat × Nat, ∀ v : Nat,
      v ≠ 0 → p ≠ q → (p, v) ∈ cells → (q, v) ∈ cells →
      p ∈ groupConflicts seen cells := by
  induction cells with
  | nil => intro _ _ _ _ _ _ h _; simp at h
  | cons hd rest ih =>
    intro seen p q v hv hpq hp hq
    obtain ⟨x, w⟩ := hd
    simp only [List.mem_cons, Prod.mk.injEq] at hp hq
    rcases hp with ⟨rfl, rfl⟩ | hp'
    · have hq' : (q, v) ∈ rest := by
        rcases hq with ⟨hq1, -⟩ | hq2
        · exact absurd hq1.symm hpq
        · exact hq2
      cases hs : seen.lookup v with
      | some q' => simp [groupConflicts, hv, hs]
      | none =>
        have hrec : p ∈ groupConflicts ((v, p) :: seen) rest :=
          mem_groupConflicts_pending rest ((v, p) :: seen) p v hv
            List.lookup_cons_self ⟨q, hq'⟩
        simpa [groupConflicts, hv, hs] using hrec
    · rcases hq with ⟨rfl, rfl⟩ | hq'
      · have hrec : p ∈ groupConflicts ((v, q) :: seen) rest :=
          mem_groupConflicts_of_seen rest ((v, q) :: seen) p v hv hp'
            (by rw [List.lookup_cons_self]; rfl)
        cases hs : seen.lookup v with
        | some q' =>
          have hgc : groupConflicts seen ((q, v) :: rest) =
              q :: q' :: groupConflicts ((v, q) :: seen) rest := by
            simp [groupConflicts, hv, hs]
          rw [hgc]
          exact List.mem_cons_of_mem _ (List.mem_cons_of_mem _ hrec)
        | none =>
          simpa [groupConflicts, hv, hs] using hrec
      · by_cases hw : w = 0
        · subst hw
          simpa [groupConflicts] using ih seen p q v hv hpq hp' hq'
        · cases hs : seen.lookup w with
          | some q' =>
            have hrec := ih ((w, x) :: seen) p q v hv hpq hp' hq'
            have hgc : groupConflicts seen ((x, w) :: rest) =
                x :: q' :: groupConflicts ((w, x) :: seen) rest := by
              simp [groupConflicts, hw, hs]
            rw [hgc]
            exact List.mem_cons_of_mem _ (List.mem_cons_of_mem _ hrec)
          | none =>
            simpa [groupConflicts, hw, hs] using ih ((w, x) :: seen) p q v hv hpq hp' hq'

theorem row_dup_mem_highlight (b : Board) (r c1 c2 : Nat) (hr : r < 9) (hc1 : c1 < 9)
    (hc2 : c2 < 9) (hne : c1 ≠ c2) (h0 : bget b r c1 ≠ 0)
    (heq : bget b r c1 = bget b r c2) : (r, c1) ∈ highlightInvalidCells b := by
  have hmem1 : ((r, c1), bget b r c1) ∈ rowCells b r :=
    List.mem_map.mpr ⟨c1, List.mem_range.mpr hc1, rfl⟩
  have hmem2 : ((r, c2), bget b r c1) ∈ rowCells b r := by
    rw [heq]
    exact List.mem_map.mpr ⟨c2, List.mem_range.mpr hc2, rfl⟩
  have hpq : ((r, c1) : Nat × Nat) ≠ (r, c2) := by simp [hne]
  have hgc := mem_groupConflicts_dup (rowCells b r) [] (r, c1) (r, c2) (bget b r c1)
    h0 hpq hmem1 hmem2
  unfold highlightInvalidCells
  exact List.mem_append_left _
    (List.mem_append_left _ (List.mem_flatMap.mpr ⟨r, List.mem_range.mpr hr, hgc⟩))

theorem col_dup_mem_highlight (b : Board) (c r1 r2 : Nat) (hc : c < 9) (hr1 : r1 < 9)
    (hr2 : r2 < 9) (hne : r1 ≠ r2) (h0 : bget b r1 c ≠ 0)
    (heq : bget b r1 c = bget b r2 c) : (r1, c) ∈ highlightInvalidCells b := by
  have hmem1 : ((r1, c), bget b r1 c) ∈ colCells b c :=
    List.mem_map.mpr ⟨r1, List.mem_range.mpr hr1, rfl⟩
  have hmem2 : ((r2, c), bget b r1 c) ∈ colCells b c := by
    rw [heq]
    exact List.mem_map.mpr ⟨r2, List.mem_range.mpr hr2, rfl⟩
  have hpq : ((r1, c) : Nat × Nat) ≠ (r2, c) := by simp [hne]
  have hgc := mem_groupConflicts_dup (colCells b c) [] (r1, c) (r2, c) (bget b r1 c)
    h0 hpq hmem1 hmem2
  unfold highlightInvalidCells
  exact List.mem_append_left _
    (List.mem_append_right _ (List.mem_flatMap.mpr ⟨c, List.mem_range.mpr hc, hgc⟩))

theorem box_dup_mem_highlight (b : Board) (br bc i1 j1 i2 j2 : Nat)
    (hbr : br ∈ ([0, 3, 6] : List Nat)) (hbc : bc ∈ ([0, 3, 6] : List Nat))
    (hi1 : i1 < 3) (hj1 : j1 < 3) (hi2 : i2 < 3) (hj2 : j2 < 3)
    (hne : (i1, j1) ≠ (i2, j2)) (h0 : bget b (br + i1) (bc + j1) ≠ 0)
    (heq : bget b (br + i1) (bc + j1) = bget b (br + i2) (bc + j2)) :
    (br + i1, bc + j1) ∈ highlightInvalidCells b := by
  have hmem1 : ((br + i1, bc + j1), bget b (br + i1) (bc + j1)) ∈ boxCells b br bc :=
    List.mem_flatMap.mpr ⟨i1, List.mem_range.mpr hi1,
      List.mem_map.mpr ⟨j1, List.mem_range.mpr hj1, rfl⟩⟩
  have hmem2 : ((br + i2, bc + j2), bget b (br + i1) (bc + j1)) ∈ boxCells b br bc := by
    rw [heq]
    exact List.mem_flatMap.mpr ⟨i2, List.mem_range.mpr hi2,
      List.mem_map.mpr ⟨j2, List.mem_range.mpr hj2, rfl⟩⟩
  have hpq : ((br + i1, bc + j1) : Nat × Nat) ≠ (br + i2, bc + j2) := by
    intro h
    simp only [Prod.mk.injEq] at h
    exact hne (by simp only [Prod.mk.injEq]; omega)
  have hgc := mem_groupConflicts_dup (boxCells b br bc) [] (br + i1, bc + j1)
    (br + i2, bc + j2) (bget b (br + i1) (bc + j1)) h0 hpq hmem1 hmem2
  unfold highlightInvalidCells
  exact List.mem_append_right _
    (List.mem_flatMap.mpr ⟨br, hbr, List.mem_flatMap.mpr ⟨bc, hbc, hgc⟩⟩)

/-- C6: within each of the 27 groups (9 rows, 9 columns, 9 boxes), both
members of every pair of non-zero equal-valued cells appear in
`highlightInvalidCells`' output; and on the scenario-A grid `g7` (two 7s in
row 0, columns 0 and 3) the output consists of exactly those two cells. -/
theorem C6_conflicts_complete :
    (∀ b : Board, ∀ r c1 c2 : Nat, r < 9 → c1 < 9 → c2 < 9 → c1 ≠ c2 →
      bget b r c1 ≠ 0 → bget b r c1 = bget b r c2 →
      (r, c1) ∈ highlightInvalidCells b ∧ (r, c2) ∈ highlightInvalidCells b) ∧
    (∀ b : Board, ∀ c r1 r2 : Nat, c < 9 → r1 < 9 → r2 < 9 → r1 ≠ r2 →
      bget b r1 c ≠ 0 → bget b r1 c = bget b r2 c →
      (r1, c) ∈ highlightInvalidCells b ∧ (r2, c) ∈ highlightInvalidCells b) ∧
    (∀ b : Board, ∀ br bc i1 j1 i2 j2 : Nat,
      br ∈ ([0, 3, 6] : List Nat) → bc ∈ ([0, 3, 6] : List Nat) →
      i1 < 3 → j1 < 3 → i2 < 3 → j2 < 3 → (i1, j1) ≠ (i2, j2) →
      bget b (br + i1) (bc + j1) ≠ 0 →
      bget b (br + i1) (bc + j1) = bget b (br + i2) (bc + j2) →
      (br + i1, bc + j1) ∈ highlightInvalidCells b ∧
        (br + i2, bc + j2) ∈ highlightInvalidCells b) ∧
    highlightInvalidCells g7 = [(0, 3), (0, 0)] := by
  refine ⟨?_, ?_, ?_, by rfl⟩
  · intro b r c1 c2 hr hc1 hc2 hne h0 heq
    exact ⟨row_dup_mem_highlight b r c1 c2 hr hc1 hc2 hne h0 heq,
      row_dup_mem_highlight b r c2 c1 hr hc2 hc1 (Ne.symm hne) (heq ▸ h0) heq.symm⟩
  · intro b c r1 r2 hc hr1 hr2 hne h0 heq
    exact ⟨col_dup_mem_highlight b c r1 r2 hc hr1 hr2 hne h0 heq,
      col_dup_mem_highlight b c r2 r1 hc hr2 hr1 (Ne.symm hne) (heq ▸ h0) heq.symm⟩
  · intro b br bc i1 j1 i2 j2 hbr hbc hi1 hj1 hi2 hj2 hne h0 heq
    exact ⟨box_dup_mem_highlight b br bc i1 j1 i2 j2 hbr hbc hi1 hj1 hi2 hj2 hne h0 heq,
      box_dup_mem_highlight b br bc i2 j2 i1 j1 hbr hbc hi2 hj2 hi1 hj1 (Ne.symm hne)
        (heq ▸ h0) heq.symm⟩

/-- Witness for C6 at the scenario-A grid: the hypotheses hold for the pair
of 7s at (0,0) and (0,3) in row 0, and the theorem places both cells in the
conflict output. -/
theorem C6_witness :
    (0 : Nat) < 9 ∧ (0 : Nat) < 9 ∧ (3 : Nat) < 9 ∧ (0 : Nat) ≠ (3 : Nat) ∧
    bget g7 0 0 ≠ 0 ∧ bget g7 0 0 = bget g7 0 3 ∧
    ((0, 0) ∈ highlightInvalidCells g7 ∧ (0, 3) ∈ highlightInvalidCells g7) :=
  ⟨by decide, by decide, by decide, by decide, by decide, by decide,
    C6_conflicts_complete.1 g7 0 0 3 (by decide) (by decide) (by decide) (by decide)
      (by decide) (by decide)⟩

/-! #### C4 and C9: the carving loop -/

theorem getD_zero_of_le {l : List Nat} {c : Nat} (h : l.length ≤ c) : l.getD c 0 = 0 := by
  rw [List.getD_eq_getElem?_getD, List.getElem?_eq_none h]
  rfl

theorem bget_out_of_row (b : Board) {r : Nat} (hr : b.length ≤ r) (c : Nat) :
    bget b r c = 0 := by
  unfold bget
  have hnone : b.getD r [] = [] := by
    rw [List.getD_eq_getElem?_getD, List.getElem?_eq_none hr]
    rfl
  rw [hnone]
  exact getD_zero_of_le (Nat.zero_le c)

theorem row_len_of_WF {b : Board} (hwf : boardWF b) {r : Nat} (hr : r < 9) :
    (b.getD r []).length = 9 := by
  obtain ⟨hlen, hrows⟩ := hwf
  have hrlt : r < b.length := by omega
  have hrow : b.getD r [] = b[r] := by
    rw [List.getD_eq_getElem?_getD, List.getElem?_eq_getElem hrlt]
    rfl
  rw [hrow]
  exact hrows _ (List.getElem_mem hrlt)

theorem bget_ne_zero_bounds {b : Board} (hwf : boardWF b) {r c : Nat}
    (h : bget b r c ≠ 0) : r < 9 ∧ c < 9 := by
  by_cases hr : r < 9
  · refine ⟨hr, ?_⟩
    by_contra hc
    apply h
    unfold bget
    apply getD_zero_of_le
    rw [row_len_of_WF hwf hr]
    omega
  · exact absurd (bget_out_of_row b (by rw [hwf.1]; omega) c) h

theorem mem_allCells {p : Nat × Nat} : p ∈ allCells ↔ p.1 < 9 ∧ p.2 < 9 := by
  obtain ⟨r, c⟩ := p
  simp [allCells]

theorem allCells_nodup : allCells.Nodup := by decide

/-- Changing a predicate at exactly one list element (present once) drops the
filter's length by one. -/
theorem length_filter_point {α : Type} (l : List α) (x : α) (p q : α → Bool)
    (hnd : l.Nodup) (hx : x ∈ l) (hpx : p x = false) (hqx : q x = true)
    (hagree : ∀ y ∈ l, y ≠ x → p y = q y) :
    (l.filter p).length + 1 = (l.filter q).length := by
  induction l with
  | nil => simp at hx
  | cons a rest ih =>
    rcases List.mem_cons.mp hx with rfl | hx'
    · have hrest : ∀ y ∈ rest, p y = q y := fun y hy =>
        hagree y (List.mem_cons_of_mem _ hy)
          (fun h => (List.nodup_cons.mp hnd).1 (h ▸ hy))
      rw [List.filter_cons, List.filter_cons, hpx, hqx]
      simp [List.filter_congr hrest]
    · have hax : a ≠ x := fun h => (List.nodup_cons.mp hnd).1 (h ▸ hx')
      have hpa : p a = q a := hagree a (by simp) hax
      have hrec := ih (List.nodup_cons.mp hnd).2 hx'
        (fun y hy hyx => hagree y (List.mem_cons_of_mem _ hy) hyx)
      rw [List.filter_cons, List.filter_cons, ← hpa]
      cases hpa' : p a <;> simp [hpa'] <;> omega

theorem nonzeroCount_eq_81 {b : Board} (hfill : isBoardFilled b = true) :
    nonzeroCount b = 81 := by
  unfold nonzeroCount
  rw [List.filter_eq_self.mpr]
  · rfl
  · intro p hp
    obtain ⟨h1, h2⟩ := mem_allCells.mp hp
    unfold isBoardFilled at hfill
    simp only [List.all_eq_true, List.mem_range] at hfill
    exact hfill p.1 h1 p.2 h2

theorem nonzeroCount_bset_zero {b : Board} (hwf : boardWF b) {r c : Nat}
    (h : bget b r c ≠ 0) : nonzeroCount (bset b r c 0) + 1 = nonzeroCount b := by
  obtain ⟨hr, hc⟩ := bget_ne_zero_bounds hwf h
  have hb0 : bget (bset b r c 0) r c = 0 :=
    bget_bset_self (by rw [hwf.1]; omega) (by rw [row_len_of_WF hwf hr]; omega)
  apply length_filter_point allCells (r, c) _ _ allCells_nodup
    (mem_allCells.mpr ⟨hr, hc⟩)
  · simp [hb0]
  · simp [h]
  · intro y hy hyx
    have : y.1 ≠ r ∨ y.2 ≠ c := by
      by_contra hcon
      push_neg at hcon
      exact hyx (Prod.ext hcon.1 hcon.2)
    simp [bget_bset_of_ne this]

/-- Every board a successful carve run returns: well-formed, with the removal
quota taken out of the non-zero count, and every cell either cleared or
untouched. -/
theorem carveLoop_spec (quota : Nat) (picks : List (Nat × Nat)) :
    ∀ removed : Nat, ∀ b g : Board, boardWF b →
      carveLoop quota picks removed b = some g →
      boardWF g ∧ nonzeroCount g + (quota - removed) = nonzeroCount b ∧
        (∀ r c : Nat, bget g r c = 0 ∨ bget g r c = bget b r c) := by
  induction picks with
  | nil =>
    intro removed b g hwf hrun
    unfold carveLoop at hrun
    by_cases hle : quota ≤ removed
    · rw [if_pos hle] at hrun
      obtain rfl : b = g := Option.some.inj hrun
      exact ⟨hwf, by omega, fun r c => Or.inr rfl⟩
    · rw [if_neg hle] at hrun
      exact absurd hrun (by simp)
  | cons pk rest ih =>
    intro removed b g hwf hrun
    obtain ⟨r, c⟩ := pk
    unfold carveLoop at hrun
    by_cases hle : quota ≤ removed
    · rw [if_pos hle] at hrun
      obtain rfl : b = g := Option.some.inj hrun
      exact ⟨hwf, by omega, fun r c => Or.inr rfl⟩
    · rw [if_neg hle] at hrun
      by_cases hhit : bget b r c = 0
      · rw [if_neg (by simp [hhit])] at hrun
        exact ih removed b g hwf hrun
      · rw [if_pos (by simp [hhit])] at hrun
        obtain ⟨hwf', hcount', hpt'⟩ := ih (removed + 1) (bset b r c 0) g
          (boardWF_bset hwf r c 0) hrun
        have hdec := nonzeroCount_bset_zero hwf hhit
        refine ⟨hwf', by omega, fun r' c' => ?_⟩
        rcases hpt' r' c' with h0 | hsame
        · exact Or.inl h0
        · rcases bget_bset_or b r c 0 r' c' with heq | heq
          · exact Or.inr (hsame.trans heq)
          · exact Or.inl (hsame.trans heq)

/-- C4: a terminating `carve(s, t)` run on a fully filled 9×9 grid `s`
returns a grid with exactly `81 − removalCount(t)` non-zero cells, each
equal to `s`'s value at that position, every other cell 0.  (`s` itself is
untouched: the embedding is pure, mirroring the deep copy the code makes
before removing cells.) -/
theorem C4_carve_shape (s : Board) (t : Difficulty) (picks : List (Nat × Nat))
    (g : Board) (hwf : boardWF s) (hfill : isBoardFilled s = true)
    (hrun : createPlayableBoard picks s t = some g) :
    nonzeroCount g = 81 - cellsToRemove t ∧
    (∀ r c : Nat, bget g r c ≠ 0 → bget g r c = bget s r c) ∧
    (∀ r c : Nat, bget g r c = 0 ∨ bget g r c = bget s r c) := by
  obtain ⟨hwf', hcount, hpt⟩ := carveLoop_spec (cellsToRemove t) picks 0 s g hwf hrun
  rw [nonzeroCount_eq_81 hfill] at hcount
  have hq : cellsToRemove t ≤ 81 := by cases t <;> simp [cellsToRemove]
  refine ⟨by omega, fun r c hnz => ?_, hpt⟩
  rcases hpt r c with h0 | hsame
  · exact absurd h0 hnz
  · exact hsame

/-- Witness for C4: carving `patternBoard` (a concrete solved grid) with the
thirty row-major picks at the easy tier yields `patternCarved`, and the
theorem's conclusions hold of it. -/
theorem C4_witness :
    boardWF patternBoard ∧ isBoardFilled patternBoard = true ∧
    createPlayableBoard picks30 patternBoard Difficulty.easy = some patternCarved ∧
    (nonzeroCount patternCarved = 81 - cellsToRemove Difficulty.easy ∧
     (∀ r c : Nat, bget patternCarved r c ≠ 0 →
        bget patternCarved r c = bget patternBoard r c) ∧
     (∀ r c : Nat, bget patternCarved r c = 0 ∨
        bget patternCarved r c = bget patternBoard r c)) :=
  ⟨by decide, by decide, by rfl,
    C4_carve_shape patternBoard .easy picks30 patternCarved (by decide) (by decide)
      (by rfl)⟩

theorem streamTake_succ (n : Nat) (f : Nat → Nat × Nat) :
    streamTake (n + 1) f = f 0 :: streamTake n (shiftStream f 1) := by
  unfold streamTake shiftStream
  rw [List.range_succ_eq_map]
  simp [List.map_map, Function.comp_def, Nat.succ_eq_add_one]

theorem fairPicks_shift {f : Nat → Nat × Nat} (h : FairPicks f) :
    FairPicks (shiftStream f 1) := by
  intro p hp n
  obtain ⟨m, hm1, hm2⟩ := h p hp (n + 1)
  refine ⟨m - 1, by omega, ?_⟩
  unfold shiftStream
  rw [Nat.sub_add_cancel (by omega)]
  exact hm2

theorem carveLoop_none_of_all_zero (quota : Nat) (picks : List (Nat × Nat)) :
    ∀ removed : Nat, ∀ b : Board, removed < quota →
      (∀ p ∈ picks, bget b p.1 p.2 = 0) →
      carveLoop quota picks removed b = none := by
  induction picks with
  | nil =>
    intro removed b h _
    unfold carveLoop
    rw [if_neg (by omega)]
  | cons pk rest ih =>
    intro removed b h hall
    obtain ⟨r, c⟩ := pk
    have h0 : bget b r c = 0 := hall (r, c) (by simp)
    unfold carveLoop
    rw [if_neg (by omega), h0]
    simp only [bne_self_eq_false, Bool.false_eq_true, if_false]
    exact ih removed b h fun q hq => hall q (List.mem_cons_of_mem _ hq)

/-- C9 fails as stated: the claim quantifies over *every* sequence of random
cell picks, but the pick stream that names cell (0,0) forever makes the
removal loop spin without progress once that cell has been cleared, so the
loop never reaches the easy-tier quota on the (solved) `patternBoard`. -/
theorem C9_counterexample_constant_picks :
    ¬ carveTerminates (cellsToRemove Difficulty.easy) constPicks patternBoard := by
  rintro ⟨n, hn⟩
  cases n with
  | zero =>
    rw [show streamTake 0 constPicks = [] from rfl] at hn
    simp [carveLoop, cellsToRemove] at hn
  | succ m =>
    rw [streamTake_succ,
      show constPicks 0 = ((0 : Nat), (0 : Nat)) from rfl] at hn
    have hstep : carveLoop (cellsToRemove Difficulty.easy)
        (((0 : Nat), (0 : Nat)) :: streamTake m (shiftStream constPicks 1)) 0 patternBoard =
        carveLoop (cellsToRemove Difficulty.easy)
          (streamTake m (shiftStream constPicks 1)) 1 (bset patternBoard 0 0 0) := by
      rfl
    have hz : ∀ p ∈ streamTake m (shiftStream constPicks 1),
        bget (bset patternBoard 0 0 0) p.1 p.2 = 0 := by
      intro p hp
      have hp0 : p = ((0 : Nat), (0 : Nat)) := by
        simp only [streamTake, shiftStream, constPicks, List.mem_map] at hp
        obtain ⟨i, -, hi⟩ := hp
        exact hi.symm
      rw [hp0]
      decide
    rw [hstep, carveLoop_none_of_all_zero _ _ 1 _ (by decide) hz] at hn
    simp at hn

/-- One round of the fair-termination argument: if the pick stream hits a
non-zero cell at time `m`, the loop makes a removal in finite time, after
which the continuation `Hnext` (the outer induction hypothesis on the
remaining quota) finishes the run. -/
theorem carve_hit_step (quota removed : Nat) (hlt : removed < quota)
    (Hnext : ∀ f' : Nat → Nat × Nat, ∀ b' : Board, FairPicks f' → boardWF b' →
      nonzeroCount b' + (removed + 1) = 81 →
      ∃ n, (carveLoop quota (streamTake n f') (removed + 1) b').isSome = true) :
    ∀ m : Nat, ∀ f : Nat → Nat × Nat, ∀ b : Board, FairPicks f → boardWF b →
      nonzeroCount b + removed = 81 → bget b (f m).1 (f m).2 ≠ 0 →
      ∃ n, (carveLoop quota (streamTake n f) removed b).isSome = true := by
  intro m
  induction m with
  | zero =>
    intro f b hfair hwf hcount h0
    rcases hf0 : f 0 with ⟨r0, c0⟩
    rw [hf0] at h0
    replace h0 : bget b r0 c0 ≠ 0 := h0
    have hdec := nonzeroCount_bset_zero hwf h0
    obtain ⟨n', hn'⟩ := Hnext (shiftStream f 1) (bset b r0 c0 0)
      (fairPicks_shift hfair) (boardWF_bset hwf r0 c0 0) (by omega)
    refine ⟨n' + 1, ?_⟩
    rw [streamTake_succ, hf0]
    unfold carveLoop
    rw [if_neg (by omega), if_pos (bne_iff_ne.mpr h0)]
    exact hn'
  | succ m ih =>
    intro f b hfair hwf hcount h0
    by_cases hhit : bget b (f 0).1 (f 0).2 ≠ 0
    · rcases hf0 : f 0 with ⟨r0, c0⟩
      rw [hf0] at hhit
      replace hhit : bget b r0 c0 ≠ 0 := hhit
      have hdec := nonzeroCount_bset_zero hwf hhit
      obtain ⟨n', hn'⟩ := Hnext (shiftStream f 1) (bset b r0 c0 0)
        (fairPicks_shift hfair) (boardWF_bset hwf r0 c0 0) (by omega)
      refine ⟨n' + 1, ?_⟩
      rw [streamTake_succ, hf0]
      unfold carveLoop
      rw [if_neg (by omega), if_pos (bne_iff_ne.mpr hhit)]
      exact hn'
    · push_neg at hhit
      obtain ⟨n', hn'⟩ := ih (shiftStream f 1) b (fairPicks_shift hfair) hwf hcount
        (by simpa [shiftStream] using h0)
      refine ⟨n' + 1, ?_⟩
      rcases hf0 : f 0 with ⟨r0, c0⟩
      rw [streamTake_succ, hf0]
      rw [hf0] at hhit
      unfold carveLoop
      rw [if_neg (by omega), hhit]
      simp only [bne_self_eq_false, Bool.false_eq_true, if_false]
      exact hn'

/-- The carving loop reaches its quota on every fair pick stream, by
induction on the remaining quota. -/
theorem carve_fair_terminates (quota : Nat) (hq : quota ≤ 81) :
    ∀ k removed : Nat, quota - removed ≤ k → ∀ f : Nat → Nat × Nat, ∀ b : Board,
      FairPicks f → boardWF b → nonzeroCount b + removed = 81 →
      ∃ n, (carveLoop quota (streamTake n f) removed b).isSome = true := by
  intro k
  induction k with
  | zero =>
    intro removed hk f b _ _ _
    refine ⟨0, ?_⟩
    rw [show streamTake 0 f = [] from rfl]
    unfold carveLoop
    rw [if_pos (by omega)]
    rfl
  | succ k ih =>
    intro removed hk f b hfair hwf hcount
    by_cases hle : quota ≤ removed
    · refine ⟨0, ?_⟩
      rw [show streamTake 0 f = [] from rfl]
      unfold carveLoop
      rw [if_pos hle]
      rfl
    · push_neg at hle
      have hpos : 0 < nonzeroCount b := by omega
      have hne : allCells.filter (fun p => bget b p.1 p.2 != 0) ≠ [] := by
        intro hnil
        rw [nonzeroCount, hnil] at hpos
        simp at hpos
      obtain ⟨p, hp⟩ := List.exists_mem_of_ne_nil _ hne
      have hpmem := (List.mem_filter.mp hp).1
      have hpnz : bget b p.1 p.2 ≠ 0 := by
        have := (List.mem_filter.mp hp).2
        simpa using this
      obtain ⟨m, -, hm⟩ := hfair p hpmem 0
      exact carve_hit_step quota removed hle
        (fun f' b' hf hw hc => ih (removed + 1) (by omega) f' b' hf hw hc)
        m f b hfair hwf hcount (by rw [hm]; exact hpnz)

/-- C9, amended: the carving loop terminates for every solved input grid and
every tier *for every fair pick stream* — one in which every cell keeps
being picked — the quota (at most 60) being below the 81 cells.  (For an
unfair stream that eventually stops naming cells that are still non-zero,
the loop spins forever; see the counterexample.) -/
theorem C9_amended_fair_picks_terminate (t : Difficulty) (f : Nat → Nat × Nat)
    (b : Board) (hwf : boardWF b) (hfill : isBoardFilled b = true)
    (hfair : FairPicks f) : carveTerminates (cellsToRemove t) f b := by
  have h81 := nonzeroCount_eq_81 hfill
  have hq : cellsToRemove t ≤ 81 := by cases t <;> simp [cellsToRemove]
  obtain ⟨n, hn⟩ := carve_fair_terminates (cellsToRemove t) hq (cellsToRemove t) 0
    (by omega) f b hfair hwf (by omega)
  exact ⟨n, hn⟩

/-- The cyclic pick stream is fair. -/
theorem cyclePicks_fair : FairPicks cyclePicks := by
  intro p hp n
  obtain ⟨r, c⟩ := p
  obtain ⟨hr, hc⟩ := mem_allCells.mp hp
  refine ⟨(n / 81 + 1) * 81 + r * 9 + c, by omega, ?_⟩
  unfold cyclePicks
  have h1 : ((n / 81 + 1) * 81 + r * 9 + c) % 9 = c := by omega
  have h2 : ((n / 81 + 1) * 81 + r * 9 + c) / 9 % 9 = r := by omega
  rw [h1, h2]

/-- Witness for C9's amended theorem: the cyclic stream is fair, and carving
`patternBoard` at the easy tier terminates along it. -/
theorem C9_amended_witness :
    boardWF patternBoard ∧ isBoardFilled patternBoard = true ∧
    FairPicks cyclePicks ∧
    carveTerminates (cellsToRemove Difficulty.easy) cyclePicks patternBoard :=
  ⟨by decide, by decide, cyclePicks_fair,
    C9_amended_fair_picks_terminate Difficulty.easy cyclePicks patternBoard
      (by decide) (by decide) cyclePicks_fair⟩

/-! #### C10 and C3: the hint machinery -/

theorem swapL_prop {P : Nat → Prop} {l : List Nat} (h : ∀ x ∈ l, P x) {i j : Nat}
    (hi : i < l.length) (hj : j < l.length) : ∀ x ∈ swapL l i j, P x := by
  intro x hx
  unfold swapL at hx
  rcases List.mem_or_eq_of_mem_set hx with hx1 | rfl
  · rcases List.mem_or_eq_of_mem_set hx1 with hx2 | rfl
    · exact h x hx2
    · have hj' : l.getD j 0 = l[j] := by
        rw [List.getD_eq_getElem?_getD, List.getElem?_eq_getElem hj]
        rfl
      rw [hj']
      exact h _ (List.getElem_mem hj)
  · have hi' : l.getD i 0 = l[i] := by
      rw [List.getD_eq_getElem?_getD, List.getElem?_eq_getElem hi]
      rfl
    rw [hi']
    exact h _ (List.getElem_mem hi)

theorem fyAux_prop {P : Nat → Prop} (jf : Nat → Nat) :
    ∀ k : Nat, k ≤ 8 → ∀ l : List Nat, l.length = 9 → (∀ x ∈ l, P x) →
      (∀ x ∈ fyAux jf k l, P x) ∧ (fyAux jf k l).length = 9 := by
  intro k
  induction k with
  | zero =>
    intro _ l hlen h
    exact ⟨by simpa [fyAux] using h, by simpa [fyAux] using hlen⟩
  | succ k ih =>
    intro hk l hlen h
    unfold fyAux
    have hi : k + 1 < l.length := by omega
    have hj : jf (k + 1) % (k + 2) < l.length := by
      have := Nat.mod_lt (jf (k + 1)) (show 0 < k + 2 by omega)
      omega
    have hlen' : (swapL l (k + 1) (jf (k + 1) % (k + 2))).length = 9 := by
      unfold swapL
      simp [List.length_set, hlen]
    exact ih (by omega) _ hlen' (swapL_prop h hi hj)

theorem fyShuffle_prop (jf : Nat → Nat) : ∀ x ∈ fyShuffle jf, 1 ≤ x ∧ x ≤ 9 :=
  (fyAux_prop jf 8 (by omega) [1, 2, 3, 4, 5, 6, 7, 8, 9] rfl (by decide)).1

theorem bget_le_of_bset {b : Board} (hb : ∀ r' c' : Nat, bget b r' c' ≤ 9) {v : Nat}
    (hv : v ≤ 9) (r c : Nat) : ∀ r' c' : Nat, bget (bset b r c v) r' c' ≤ 9 := by
  intro r' c'
  rcases bget_bset_or b r c v r' c' with h | h <;> rw [h]
  · exact hb r' c'
  · exact hv

theorem foldl_bset_ub {α : Type} (st : Board → α → Board)
    (hstep : ∀ b : Board, ∀ a : α, (∀ r' c' : Nat, bget b r' c' ≤ 9) →
      (∀ r' c' : Nat, bget (st b a) r' c' ≤ 9)) :
    ∀ l : List α, ∀ b : Board, (∀ r' c' : Nat, bget b r' c' ≤ 9) →
      ∀ r' c' : Nat, bget (l.foldl st b) r' c' ≤ 9 := by
  intro l
  induction l with
  | nil => intro b hb; simpa using hb
  | cons a rest ih =>
    intro b hb
    rw [List.foldl_cons]
    exact ih _ (hstep b a hb)

theorem fillBox_ub {b : Board} (hb : ∀ r' c' : Nat, bget b r' c' ≤ 9) (rs cs : Nat)
    (jf : Nat → Nat) : ∀ r' c' : Nat, bget (fillBox b rs cs jf) r' c' ≤ 9 := by
  have hnum : ∀ k : Nat, (fyShuffle jf).getD k 0 ≤ 9 := by
    intro k
    by_cases hk : k < (fyShuffle jf).length
    · have : (fyShuffle jf).getD k 0 = (fyShuffle jf)[k] := by
        rw [List.getD_eq_getElem?_getD, List.getElem?_eq_getElem hk]
        rfl
      rw [this]
      exact (fyShuffle_prop jf _ (List.getElem_mem hk)).2
    · rw [getD_zero_of_le (by omega)]
      omega
  unfold fillBox
  exact foldl_bset_ub _
    (fun b1 i hb1 => foldl_bset_ub _
      (fun b2 j hb2 => bget_le_of_bset hb2 (hnum _) _ _) (List.range 3) b1 hb1)
    (List.range 3) b hb

theorem bget_emptyBoard (r c : Nat) : bget emptyBoard r c = 0 := by
  unfold bget emptyBoard
  by_cases hr : r < 9
  · have : (List.replicate 9 (List.replicate 9 (0 : Nat))).getD r [] =
        List.replicate 9 (0 : Nat) := by
      rw [List.getD_eq_getElem?_getD, List.getElem?_replicate, if_pos hr]
      rfl
    rw [this]
    by_cases hc : c < 9
    · rw [List.getD_eq_getElem?_getD, List.getElem?_replicate, if_pos hc]
      rfl
    · exact getD_zero_of_le (by simpa using by omega)
  · have : (List.replicate 9 (List.replicate 9 (0 : Nat))).getD r [] = [] := by
      rw [List.getD_eq_getElem?_getD, List.getElem?_replicate, if_neg hr]
      rfl
    rw [this]
    exact getD_zero_of_le (by simp)

theorem fillDiagonalBoxes_ub (jf : Nat → Nat → Nat) :
    ∀ r' c' : Nat, bget (fillDiagonalBoxes jf emptyBoard) r' c' ≤ 9 := by
  unfold fillDiagonalBoxes
  exact fillBox_ub (fillBox_ub (fillBox_ub
    (fun r' c' => by rw [bget_emptyBoard]; omega) 0 0 (jf 0)) 3 3 (jf 1)) 6 6 (jf 2)

theorem solveBoardF_ub : ∀ fuel : Nat, ∀ b s : Board,
    (∀ r' c' : Nat, bget b r' c' ≤ 9) → solveBoardF fuel b = some s →
    (∀ r' c' : Nat, bget s r' c' ≤ 9) := by
  intro fuel
  induction fuel with
  | zero => intro b s _ h; exact absurd h (by simp [solveBoardF])
  | succ fuel ih =>
    intro b s hb hrun
    unfold solveBoardF at hrun
    cases hfe : findEmptyCell b with
    | none =>
      rw [hfe] at hrun
      obtain rfl := Option.some.inj hrun
      exact hb
    | some rc =>
      rw [hfe] at hrun
      obtain ⟨num, hmem, hnum⟩ := List.exists_of_findSome?_eq_some hrun
      have hnum9 : num ≤ 9 := by
        simp only [List.mem_cons, List.not_mem_nil, or_false] at hmem
        omega
      by_cases hvp : isValidPlacement b rc.1 rc.2 num = true
      · rw [if_pos hvp] at hnum
        exact ih _ s (bget_le_of_bset hb hnum9 rc.1 rc.2) hnum
      · rw [if_neg hvp] at hnum
        exact absurd hnum (by simp)

theorem generateSolvedBoard_ub (jf : Nat → Nat → Nat) :
    ∀ r' c' : Nat, bget (generateSolvedBoard jf) r' c' ≤ 9 := by
  intro r' c'
  have hseed := fillDiagonalBoxes_ub jf
  unfold generateSolvedBoard
  dsimp only
  generalize hgen : solveBoardF 82 (fillDiagonalBoxes jf emptyBoard) = res
  cases res with
  | some s => exact solveBoardF_ub 82 _ s hseed hgen r' c'
  | none => exact hseed r' c'

theorem mem_hintCells_bounds {game sol : Board} {p : Nat × Nat}
    (h : p ∈ hintCells game sol) : p.1 < 9 ∧ p.2 < 9 := by
  unfold hintCells at h
  simp only [List.mem_flatMap, List.mem_filterMap, List.mem_range] at h
  obtain ⟨r, hr, c, hc, hif⟩ := h
  split at hif
  · obtain rfl := Option.some.inj hif
    exact ⟨hr, hc⟩
  · exact absurd hif (by simp)

theorem nonzeroCount_le_bset (b : Board) (r c v : Nat) (hv : v ≠ 0) :
    nonzeroCount b ≤ nonzeroCount (bset b r c v) := by
  unfold nonzeroCount
  rw [← List.countP_eq_length_filter, ← List.countP_eq_length_filter]
  apply List.countP_mono_left
  intro q _ hq
  rcases bget_bset_or b r c v q.1 q.2 with h | h <;> rw [h]
  · exact hq
  · simpa using hv

/-- C10: whenever `showHint` applies a suggestion it writes a digit in
[1,9], never 0 — provided the fresh reference generation produced a fully
filled board (which Sudoku theory guarantees for the diagonal seeding, but
which is recorded here as the hypothesis `hgen`) — and consequently the
grid's non-zero count never decreases across the call. -/
theorem C10_hint_writes_nonzero (jf : Nat → Nat → Nat) (pick : Nat) (s : GameState)
    (hgen : isBoardFilled (generateSolvedBoard jf) = true) :
    ((showHint jf pick s).gameBoard = s.gameBoard ∨
      ∃ r c v : Nat, r < 9 ∧ c < 9 ∧ 1 ≤ v ∧ v ≤ 9 ∧
        (showHint jf pick s).gameBoard = bset s.gameBoard r c v) ∧
    nonzeroCount s.gameBoard ≤ nonzeroCount (showHint jf pick s).gameBoard := by
  unfold showHint
  by_cases hgs : s.gameStarted = false
  · rw [if_pos hgs]
    exact ⟨Or.inl rfl, le_refl _⟩
  · rw [if_neg hgs]
    dsimp only
    by_cases hcells : (hintCells s.gameBoard (generateSolvedBoard jf)).length = 0
    · rw [if_pos hcells]
      exact ⟨Or.inl rfl, le_refl _⟩
    · rw [if_neg hcells]
      dsimp only
      have hlen : 0 < (hintCells s.gameBoard (generateSolvedBoard jf)).length :=
        Nat.pos_of_ne_zero hcells
      have hidx : pick % (hintCells s.gameBoard (generateSolvedBoard jf)).length <
          (hintCells s.gameBoard (generateSolvedBoard jf)).length :=
        Nat.mod_lt _ hlen
      have hpmem : (hintCells s.gameBoard (generateSolvedBoard jf)).getD
          (pick % (hintCells s.gameBoard (generateSolvedBoard jf)).length) (0, 0) ∈
          hintCells s.gameBoard (generateSolvedBoard jf) := by
        rw [List.getD_eq_getElem?_getD, List.getElem?_eq_getElem hidx]
        exact List.getElem_mem hidx
      obtain ⟨hb1, hb2⟩ := mem_hintCells_bounds hpmem
      set p := (hintCells s.gameBoard (generateSolvedBoard jf)).getD
        (pick % (hintCells s.gameBoard (generateSolvedBoard jf)).length) (0, 0) with hp
      have hv0 : bget (generateSolvedBoard jf) p.1 p.2 ≠ 0 := by
        unfold isBoardFilled at hgen
        simp only [List.all_eq_true, List.mem_range, bne_iff_ne, ne_eq] at hgen
        exact hgen p.1 hb1 p.2 hb2
      have hv9 : bget (generateSolvedBoard jf) p.1 p.2 ≤ 9 :=
        generateSolvedBoard_ub jf p.1 p.2
      refine ⟨Or.inr ⟨p.1, p.2, bget (generateSolvedBoard jf) p.1 p.2,
        hb1, hb2, by omega, hv9, rfl⟩, ?_⟩
      exact nonzeroCount_le_bset s.gameBoard p.1 p.2 _ hv0

/-- Witness for C10 at the concrete stream `jf0` (whose generation is the
fully filled `s0`) and the session `st4`. -/
theorem C10_witness :
    isBoardFilled (generateSolvedBoard jf0) = true ∧
    (((showHint jf0 0 st4).gameBoard = st4.gameBoard ∨
      ∃ r c v : Nat, r < 9 ∧ c < 9 ∧ 1 ≤ v ∧ v ≤ 9 ∧
        (showHint jf0 0 st4).gameBoard = bset st4.gameBoard r c v) ∧
      nonzeroCount st4.gameBoard ≤ nonzeroCount (showHint jf0 0 st4).gameBoard) :=
  ⟨by rw [genEval0]; decide,
    C10_hint_writes_nonzero jf0 0 st4 (by rw [genEval0]; decide)⟩

theorem hintCells_self_empty {g : Board} (hfill : isBoardFilled g = true) :
    hintCells g g = [] := by
  unfold hintCells
  rw [List.flatMap_eq_nil_iff]
  intro r hr
  rw [List.filterMap_eq_nil_iff]
  intro c hc
  unfold isBoardFilled at hfill
  simp only [List.all_eq_true, List.mem_range, bne_iff_ne, ne_eq] at hfill
  have hne : bget g r c ≠ 0 := hfill r (List.mem_range.mp hr) c (List.mem_range.mp hc)
  simp [hne]

set_option maxRecDepth 1000000 in
/-- C3 fails as the claim states it: `g0` is a completely filled, valid
solved grid, yet `requestHint` run with the random choices `jf0` — whose
freshly generated reference solution `s0` differs from `g0` — does apply a
suggestion and rewrites the grid (at cell (0,3): `g0` holds 2, `s0`
holds 1). -/
theorem C3_counterexample_hint_rewrites_solved_grid :
    isBoardFilled g0 = true ∧ isBoardValid g0 = true ∧
    st3.gameBoard = g0 ∧ st3.gameStarted = true ∧
    (showHint jf0 0 st3).gameBoard ≠ st3.gameBoard := by
  refine ⟨by decide, by decide, rfl, rfl, ?_⟩
  intro hEq
  have h1 : bget (showHint jf0 0 st3).gameBoard 0 3 = 2 := by
    rw [hEq]
    decide
  have h2 : bget (showHint jf0 0 st3).gameBoard 0 3 = 1 := by decide
  omega

/-- C3, amended: `requestHint` is a no-op on a completely filled grid
precisely for those random choices whose freshly generated reference
solution coincides with the current grid; under that condition the session
state is returned unchanged (no suggestion). -/
theorem C3_amended_hint_noop_when_grid_matches_reference (jf : Nat → Nat → Nat)
    (pick : Nat) (s : GameState) (hmatch : s.gameBoard = generateSolvedBoard jf)
    (hfill : isBoardFilled s.gameBoard = true) :
    showHint jf pick s = s := by
  unfold showHint
  by_cases hgs : s.gameStarted = false
  · rw [if_pos hgs]
  · rw [if_neg hgs]
    dsimp only
    rw [← hmatch, hintCells_self_empty hfill]
    simp

/-- Witness for C3's amended theorem: the session `st4` holds exactly the
board that the stream `jf0` generates, and the hint leaves it unchanged. -/
theorem C3_amended_witness :
    st4.gameBoard = generateSolvedBoard jf0 ∧ isBoardFilled st4.gameBoard = true ∧
    showHint jf0 0 st4 = st4 :=
  ⟨genEval0.symm, by decide,
    C3_amended_hint_noop_when_grid_matches_reference jf0 0 st4 genEval0.symm (by decide)⟩

set_option maxRecDepth 1000000 in
/-- C2's failing input, executed end to end: `startNewGame` at the easy tier
with the concrete random streams (reference solution `s0`, carving the first
thirty cells row-major) yields the reachable session `st0`; its cell (3,3)
is a given (the carver left the 2 from `s0` there, and `GivenMask` is
`originalBoard ≠ 0`).  A `requestHint` drawn with the streams `jf2` — whose
fresh reference solution `s2` holds 3 at (3,3) — picks that given cell and
overwrites its value, while `originalBoard` still marks it as given. -/
theorem C2_hint_overwrites_given :
    startNewGame Difficulty.easy jf0 picks30 = some st0 ∧
    bget st0.originalBoard 3 3 = 2 ∧ bget st0.gameBoard 3 3 = 2 ∧
    bget (showHint jf2 30 st0).gameBoard 3 3 = 3 ∧
    (showHint jf2 30 st0).originalBoard = st0.originalBoard := by
  exact ⟨by rfl, by decide, by decide, by decide, by rfl⟩

/-! #### C8: behaviour after completion -/

set_option maxRecDepth 1000000 in
/-- C8 fails as stated: play the easy game `st0` (reachable via
`startNewGame`, see the first conjunct) to completion by filling its thirty
carved cells with `s0`'s values; the session reaches Completed with cell
(3,2) still selected.  One further `placeValue` call — a 1 where the
solution holds 3 — is *not* rejected: it writes into the grid (while
`completed` stays true, so the session shows a corrupted grid as a completed
game). -/
theorem C8_counterexample_place_after_completed :
    startNewGame Difficulty.easy jf0 picks30 = some st0 ∧
    completedState.completed = true ∧
    completedState.selectedCell = some (3, 2) ∧
    bget completedState.gameBoard 3 2 = 3 ∧
    bget (handleNumberInput 1 completedState).gameBoard 3 2 = 1 ∧
    (handleNumberInput 1 completedState).completed = true := by
  exact ⟨by rfl, by decide, by decide, by decide, by decide, by decide⟩

/-- C8, amended: once a session is Completed, the `completed` flag itself is
permanent — no session operation (`placeValue`, `selectCell`, `requestHint`)
ever resets it; only a new `startNewGame` produces a non-completed state.
However, `placeValue` calls issued while Completed are *not* rejected: with
a cell still selected they modify the grid (see the counterexample). -/
theorem C8_amended_completed_persists (s : GameState) (hdone : s.completed = true) :
    (∀ num : Nat, (handleNumberInput num s).completed = true) ∧
    (∀ r c : Nat, (handleCellSelect r c s).completed = true) ∧
    (∀ jf : Nat → Nat → Nat, ∀ pick : Nat, (showHint jf pick s).completed = true) := by
  refine ⟨fun num => ?_, fun r c => ?_, fun jf pick => ?_⟩
  · unfold handleNumberInput
    cases hsel : s.selectedCell with
    | none => exact hdone
    | some rc =>
      obtain ⟨r, c⟩ := rc
      dsimp only
      split
      · split
        · rfl
        · exact hdone
      · split
        · rfl
        · exact hdone
  · unfold handleCellSelect
    split
    · exact hdone
    · exact hdone
  · unfold showHint
    split
    · exact hdone
    · dsimp only
      split
      · exact hdone
      · dsimp only
        split
        · rfl
        · exact hdone

/-- Witness for C8's amended theorem at the concrete completed session
`stDone`. -/
theorem C8_amended_witness :
    stDone.completed = true ∧
    ((∀ num : Nat, (handleNumberInput num stDone).completed = true) ∧
     (∀ r c : Nat, (handleCellSelect r c stDone).completed = true) ∧
     (∀ jf : Nat → Nat → Nat, ∀ pick : Nat, (showHint jf pick stDone).completed = true)) :=
  ⟨rfl, C8_amended_completed_persists stDone rfl⟩

end SudokuGame
